import Mathlib

/-!
Verification development for the NotionAutoFill time-record classifier.

The definitions below are a shallow embedding of the repository's Python
sources (`main.py`, `notion_client.py`, `openai_client.py`):

* pure string work (lowercasing, stripping, substring search) is modelled on
  `List Char`, the underlying data of a Lean `String`;
* the two network gateways are modelled by explicit inputs: an HTTP response
  is a value (`Option (Nat × α)`: `none` for a network exception, otherwise
  status code and body) and the language model is an oracle
  `String → Option String` from prompt to raw answer;
* `process_time_records` becomes a pure function from such an environment to
  its boolean result together with a trace of the calls it issued
  (vocabulary fetch, entry fetch, classifier calls, update calls).
-/

/-! ## String helpers shared by several components -/

/-- Characters Python's `str.strip()` removes (ASCII whitespace; the model
keeps the set used by the repository's data). -/
def pyWhitespace (c : Char) : Bool :=
  c == ' ' || c == '\t' || c == '\n' || c == '\r' ||
  c == Char.ofNat 11 || c == Char.ofNat 12

/-- Python `s.strip()` on the character list: drop whitespace from both ends. -/
def stripChars (l : List Char) : List Char :=
  List.rdropWhile pyWhitespace (List.dropWhile pyWhitespace l)

/-- Python `s.lower()` on a string, as the list of lowercased characters. -/
def lowerChars (s : String) : List Char :=
  s.data.map Char.toLower

/-- Python `needle in hay` (substring containment) on character lists. -/
def containsSub (needle hay : List Char) : Bool :=
  hay.tails.any (fun t => needle.isPrefixOf t)

/-- Python `s.split(sep)` for a one-character separator (keeps empty pieces). -/
def splitOnChar (sep : Char) : List Char → List (List Char)
  | [] => [[]]
  | c :: rest =>
    if c == sep then [] :: splitOnChar sep rest
    else
      match splitOnChar sep rest with
      | [] => [[c]]
      | l :: ls => (c :: l) :: ls

/-! ## Answer resolution (`main.py`, `classify_time_record` /
`determine_time_type`, the validation blocks) -/

/-- The validation block of `classify_time_record` (main.py 204-223): exact
match, then case-insensitive first match, then partial (substring either way)
first match, else `none`. -/
def resolve_classification (classification : String)
    (classification_options : List String) : Option String :=
  if classification_options.contains classification then some classification
  else
    match classification_options.find?
        (fun option => lowerChars classification == lowerChars option) with
    | some option => some option
    | none =>
      classification_options.find? (fun option =>
        containsSub (lowerChars classification) (lowerChars option) ||
        containsSub (lowerChars option) (lowerChars classification))

/-- The validation block of `determine_time_type` (main.py 251-270), a
textual copy of the one in `classify_time_record`. -/
def resolve_time_type (time_type : String)
    (time_type_options : List String) : Option String :=
  if time_type_options.contains time_type then some time_type
  else
    match time_type_options.find?
        (fun option => lowerChars time_type == lowerChars option) with
    | some option => some option
    | none =>
      time_type_options.find? (fun option =>
        containsSub (lowerChars time_type) (lowerChars option) ||
        containsSub (lowerChars option) (lowerChars time_type))

/-- Modelled from the spec: the three-tier match policy exactly as §4.3(d)
words it (tier 1 exact equality; tier 2 case-insensitive equality, first
match in vocabulary order; tier 3 substring containment in either direction
— the raw answer contains a label, or a label contains the raw answer —
first match in vocabulary order; else unresolved). Stated separately from
the source-derived `resolve_classification` so the two can be compared. -/
def threeTierResolve (raw : String) (vocab : List String) : Option String :=
  if vocab.contains raw then some raw
  else
    match vocab.find? (fun label => lowerChars raw == lowerChars label) with
    | some label => some label
    | none =>
      vocab.find? (fun label =>
        containsSub (lowerChars label) (lowerChars raw) ||
        containsSub (lowerChars raw) (lowerChars label))

/-! ## Prompt construction (main.py 276-335) -/

/-- `build_classification_prompt` (main.py 276-304). -/
def build_classification_prompt (content : String)
    (classification_options : List String) : String :=
  let options_str := String.intercalate "\n"
    (classification_options.map (fun option => "- " ++ option))
  "Please classify the following time tracking record into one of the exact categories listed below.\n\nTime Record: "
    ++ content
    ++ "\n\nAvailable Categories:\n"
    ++ options_str
    ++ "\n\nInstructions:\n1. Analyze the content of the time record\n2. Choose the most appropriate category from the list above\n3. Respond with ONLY the exact category name, nothing else\n4. If none of the categories fit perfectly, choose the closest one\n\nClassification:"

/-- `build_time_type_prompt` (main.py 306-335). -/
def build_time_type_prompt (content : String)
    (time_type_options : List String) : String :=
  let options_str := String.intercalate "\n"
    (time_type_options.map (fun option => "- " ++ option))
  "Please determine the time type of the following time tracking record. Choose from one of the exact time types listed below.\n\nTime Record: "
    ++ content
    ++ "\n\nAvailable Time Types:\n"
    ++ options_str
    ++ "\n\nInstructions:\n1. Analyze the content of the time record\n2. Determine what type of work this represents\n3. Choose the most appropriate time type from the list above\n4. Respond with ONLY the exact time type name, nothing else\n5. If none of the time types fit perfectly, choose the closest one\n\nTime Type:"

/-- `classify_time_record` (main.py 182-227): call the model on the built
prompt; a `None` or empty answer yields `None` (main.py 200-202), otherwise
the answer is validated against the options. The model call is the oracle
`llm` from prompt to raw answer. -/
def classify_time_record (llm : String → Option String) (content : String)
    (classification_options : List String) : Option String :=
  match llm (build_classification_prompt content classification_options) with
  | none => none
  | some classification =>
    if classification.data.isEmpty then none
    else resolve_classification classification classification_options

/-- `determine_time_type` (main.py 229-274), same shape with its own prompt. -/
def determine_time_type (llm : String → Option String) (content : String)
    (time_type_options : List String) : Option String :=
  match llm (build_time_type_prompt content time_type_options) with
  | none => none
  | some time_type =>
    if time_type.data.isEmpty then none
    else resolve_time_type time_type time_type_options

/-! ## The record store gateway (`notion_client.py`) -/

/-- One time-record entry as `process_time_records` reads it: the page id,
the current `分类` select value (`none` when absent; Python reads the
select name, which may in principle be empty), the current `时间类型`
select value, and the content text that `get_record_content` extracts. -/
structure Record where
  id : String
  classification : Option String
  timeType : Option String
  content : String
deriving DecidableEq

/-- `get_time_records` (notion_client.py 29-62): the HTTP response is
`none` for a network exception (the `except` path logs and returns `[]`),
or `some (status, results)`; a non-200 status also logs and returns `[]`;
a 200 response returns its `results`. -/
def get_time_records (resp : Option (Nat × List Record)) : List Record :=
  match resp with
  | none => []
  | some (status, results) => if status == 200 then results else []

/-- The properties included in the PATCH body built by
`update_record_classification_and_type` (notion_client.py 70-88):
a field is added only when the argument string is non-empty (Python
truthiness `if classification:` / `if time_type:`). `none` means the
attribute is omitted from the payload. -/
structure UpdatePayload where
  classification : Option String
  timeType : Option String
deriving DecidableEq

/-- Build the update payload from the two string arguments, as
`update_record_classification_and_type` does. -/
def updatePayload (classification time_type : String) : UpdatePayload :=
  { classification := if classification.data.isEmpty then none else some classification
    timeType := if time_type.data.isEmpty then none else some time_type }

/-! ## The classification engine (`main.py`, `process_time_records`) -/

/-- Python truthiness of an optional string (`None` and `""` are falsy). -/
def truthy : Option String → Bool
  | none => false
  | some s => !s.data.isEmpty

/-- The string actually passed to the update call for an optional value:
`classification if classification else ""` (main.py 159-160). -/
def argOrEmpty : Option String → String
  | none => ""
  | some s => s

/-- The environment of one run: the CLI date argument, the results the
Notion gateway returns for the two vocabulary fetches, the raw HTTP
response for the entry query, the model oracle, and whether each PATCH
succeeds (by record id). -/
structure Env where
  targetDate : Option String
  classificationOptions : List String
  timeTypeOptions : List String
  recordsResp : Option (Nat × List Record)
  llm : String → Option String
  updateOutcome : String → Bool

/-- The observable calls of one run. -/
structure RunTrace where
  vocabFetched : Bool
  recordsFetched : Bool
  llmCalls : List String
  updateCalls : List (String × UpdatePayload)
  classifiedCount : Nat
deriving DecidableEq

/-- The per-record body of the loop in `process_time_records`
(main.py 116-173): skip when both attributes are already set (truthily),
skip when the content is blank after stripping, otherwise classify each
missing attribute (the time type only when its option list is non-empty)
and issue the update call. Returns the classifier calls (as prompts), the
update calls (record id and payload) and the contribution to
`classified_count`. -/
def processRecord (env : Env) (r : Record) :
    List String × List (String × UpdatePayload) × Nat :=
  if truthy r.classification && truthy r.timeType then ([], [], 0)
  else if (stripChars r.content.data).isEmpty then ([], [], 0)
  else
    let classification : Option String :=
      if truthy r.classification then r.classification
      else classify_time_record env.llm r.content env.classificationOptions
    let clsCalls : List String :=
      if truthy r.classification then []
      else [build_classification_prompt r.content env.classificationOptions]
    let time_type : Option String :=
      if !(truthy r.timeType) && !env.timeTypeOptions.isEmpty then
        determine_time_type env.llm r.content env.timeTypeOptions
      else r.timeType
    let ttCalls : List String :=
      if !(truthy r.timeType) && !env.timeTypeOptions.isEmpty then
        [build_time_type_prompt r.content env.timeTypeOptions]
      else []
    let payload := updatePayload (argOrEmpty classification) (argOrEmpty time_type)
    (clsCalls ++ ttCalls, [(r.id, payload)],
      if env.updateOutcome r.id then 1 else 0)

/-- The loop over the fetched records, accumulating the trace in order. -/
def runRecords (env : Env) : List Record →
    List String × List (String × UpdatePayload) × Nat
  | [] => ([], [], 0)
  | r :: rs =>
    let (a, b, c) := processRecord env r
    let (as, bs, cs) := runRecords env rs
    (a ++ as, b ++ bs, c + cs)

/-- Leap years as Python's `datetime` computes them. -/
def isLeapYear (y : Nat) : Bool :=
  (y % 4 == 0 && y % 100 != 0) || (y % 400 == 0)

/-- Days in a month, used by `datetime.strptime` to validate the day. -/
def daysInMonth (y m : Nat) : Nat :=
  if m == 2 then (if isLeapYear y then 29 else 28)
  else if m == 4 || m == 6 || m == 9 || m == 11 then 30
  else 31

/-- `datetime.strptime(target_date, '%Y-%m-%d')` as a partial parse: exactly
three dash-separated fields, a four-digit year, a one- or two-digit month and
day, with the ranges `datetime` accepts (year at least 1, month 1-12, day
valid for the month). `none` models the `ValueError` path (main.py 80-84). -/
def parseDate (s : String) : Option (Nat × Nat × Nat) :=
  match splitOnChar '-' s.data with
  | [ys, ms, ds] =>
    if (ys.all (fun c => c.isDigit) && ys.length == 4) &&
       (ms.all (fun c => c.isDigit) && (ms.length == 1 || ms.length == 2)) &&
       (ds.all (fun c => c.isDigit) && (ds.length == 1 || ds.length == 2)) then
      let y := ys.foldl (fun a c => a * 10 + (c.toNat - 48)) 0
      let m := ms.foldl (fun a c => a * 10 + (c.toNat - 48)) 0
      let d := ds.foldl (fun a c => a * 10 + (c.toNat - 48)) 0
      if 1 ≤ y ∧ 1 ≤ m ∧ m ≤ 12 ∧ 1 ≤ d ∧ d ≤ daysInMonth y m then
        some (y, m, d)
      else none
    else none
  | _ => none

/-- The body of `process_time_records` after date handling (main.py 91-176):
fetch the classification options and fail if they are empty; fetch the time
type options (an empty list only warns); fetch the records, an empty result
being a successful no-op; otherwise run the loop and return `True`. -/
def processRun (env : Env) : Bool × RunTrace :=
  if env.classificationOptions.isEmpty then
    (false, ⟨true, false, [], [], 0⟩)
  else
    let records := get_time_records env.recordsResp
    if records.isEmpty then (true, ⟨true, true, [], [], 0⟩)
    else
      let (llm, upd, cnt) := runRecords env records
      (true, ⟨true, true, llm, upd, cnt⟩)

/-- `process_time_records` (main.py 67-180): a truthy date argument is
parsed first and an unparseable one returns `False` before any fetch;
afterwards the run proper is executed. -/
def process_time_records (env : Env) : Bool × RunTrace :=
  if truthy env.targetDate then
    match parseDate (argOrEmpty env.targetDate) with
    | none => (false, ⟨false, false, [], [], 0⟩)
    | some _ => processRun env
  else processRun env

/-- `main` (main.py 392-410): exit code 0 when `run` (hence
`process_time_records`) returns `True`, else 1. -/
def mainExitCode (env : Env) : Nat :=
  if (process_time_records env).1 then 0 else 1

/-! ## Response sanitization (`openai_client.py`, `_clean_response`) -/

/-- The characters of `<think>`. -/
def thinkOpen : List Char := ['<', 't', 'h', 'i', 'n', 'k', '>']

/-- The characters of `</think>`. -/
def thinkClose : List Char := ['<', '/', 't', 'h', 'i', 'n', 'k', '>']

/-- The predicate of the regex class `[^>]`. -/
def notGt (x : Char) : Bool := x != '>'

/-- `re.sub(r'<think>.*?</think>', '', cleaned, flags=re.DOTALL)`: scan left
to right (mode `false`); at a `<think>` that is followed (non-greedily) by a
`</think>`, enter skipping mode (`true`), which drops characters up to and
past the first close and then resumes scanning; any other character is kept.
An unclosed `<think>` matches nothing and is kept. -/
def removeThinkAux : Bool → List Char → List Char
  | _, [] => []
  | false, c :: rest =>
    if thinkOpen.isPrefixOf (c :: rest) &&
        containsSub thinkClose (List.drop 6 rest) then
      removeThinkAux true (List.drop 6 rest)
    else c :: removeThinkAux false rest
  | true, c :: rest =>
    if thinkClose.isPrefixOf (c :: rest) then
      removeThinkAux false (List.drop 7 rest)
    else removeThinkAux true rest
termination_by mode l => l.length
decreasing_by
  all_goals simp only [List.length_cons, List.length_drop]
  all_goals omega

/-- The think-block removal, started in scanning mode. -/
def removeThink (l : List Char) : List Char := removeThinkAux false l

/-- `re.sub(r'<[^>]+>', '', cleaned)`: scan left to right; at a `<` whose
first following `>` has at least one character in between, drop the whole
match and continue after the `>`; otherwise keep the character. -/
def removeTags : List Char → List Char
  | [] => []
  | c :: rest =>
    if c == '<' then
      match h : rest.dropWhile notGt with
      | [] => c :: removeTags rest
      | _ :: rest2 =>
        if (rest.takeWhile notGt).isEmpty then c :: removeTags rest
        else removeTags rest2
    else c :: removeTags rest
termination_by l => l.length
decreasing_by
  all_goals simp only [List.length_cons]
  all_goals first
    | omega
    | (have h1 : (rest.dropWhile notGt).Sublist rest := List.dropWhile_sublist notGt
       have h2 := h1.length_le
       rw [h] at h2
       simp only [List.length_cons] at h2
       omega)

/-- Whether the text still contains a match of `<[^>]+>`: a `<` whose first
following `>` is at distance at least two. -/
def hasTag : List Char → Bool
  | [] => false
  | c :: rest =>
    if c == '<' then
      match rest.dropWhile notGt with
      | [] => hasTag rest
      | _ :: _ =>
        if (rest.takeWhile notGt).isEmpty then hasTag rest
        else true
    else hasTag rest

/-- The explanation words of the length/content test (openai_client.py 51). -/
def triggerWords : List (List Char) :=
  [String.data "step", String.data "analyze", String.data "break",
   String.data "classify", String.data "category"]

/-- The words excluded from a recovered line (openai_client.py 56). -/
def lineWords : List (List Char) :=
  [String.data "step", String.data "analyze", String.data "break"]

/-- `len(cleaned) > 50 or any(word in cleaned.lower() for word in [...])`. -/
def isLongOrExplanatory (l : List Char) : Bool :=
  decide (l.length > 50) ||
  triggerWords.any (fun w => containsSub w (l.map Char.toLower))

/-- The test a stripped line must pass to be recovered
(openai_client.py 56): non-empty, shorter than 20 characters, and free of
the excluded words. -/
def goodLine (s : List Char) : Bool :=
  !s.isEmpty && decide (s.length < 20) &&
  !(lineWords.any (fun w => containsSub w (s.map Char.toLower)))

/-- The fallback scan (openai_client.py 53-58): walk the lines from the end;
the first stripped line passing `goodLine` replaces the text; if none does,
the text is returned unchanged. -/
def extractShortLine (t : List Char) : List Char :=
  match (splitOnChar '\n' t).reverse.findSome?
      (fun ln => let s := stripChars ln; if goodLine s then some s else none) with
  | some l => l
  | none => t

/-- `_clean_response` (openai_client.py 34-60) on the character list: strip;
remove `<think>...</think>` blocks (and strip) when `<think>` occurs; remove
remaining XML-like tags and strip; if the result is long or explanatory, try
to recover the last short line. -/
def cleanChars (l : List Char) : List Char :=
  let c1 := stripChars l
  let c2 := if containsSub thinkOpen c1 then stripChars (removeThink c1) else c1
  let c3 := stripChars (removeTags c2)
  if isLongOrExplanatory c3 then extractShortLine c3 else c3

/-- `_clean_response` as a string function. -/
def clean_response (s : String) : String := ⟨cleanChars s.data⟩

/-! ## Concrete runs used as test inputs -/

/-- An unclassified record with content, used for the entry-fetch-failure run. -/
def rec2 : Record := ⟨"r2", none, none, "meeting"⟩

/-- A run whose entry query gets HTTP 500 (a transport failure). -/
def env2 : Env := ⟨none, ["Work"], [], some (500, [rec2]), fun _ => none, fun _ => true⟩

/-- An unclassified record whose classifier call will fail. -/
def rec3 : Record := ⟨"r3", none, none, "walk"⟩

/-- A run where the model returns no answer and no time-type options exist. -/
def env3 : Env := ⟨none, ["Work"], [], some (200, [rec3]), fun _ => none, fun _ => true⟩

/-- A record whose category is already set and whose time type is missing. -/
def rec4 : Record := ⟨"r4", some "Work", none, "reading"⟩

/-- A run over `rec4` whose model resolves the time type to `TypeA`. -/
def env4 : Env :=
  ⟨none, ["Work", "Study"], ["TypeA"], some (200, [rec4]), fun _ => some "TypeA", fun _ => true⟩

/-- A record whose time type is already set and whose category is missing. -/
def rec4b : Record := ⟨"r4b", none, some "TypeA", "reading"⟩

/-- A run over `rec4b` whose model resolves the category to `Work`. -/
def env4b : Env :=
  ⟨none, ["Work", "Study"], ["TypeA"], some (200, [rec4b]), fun _ => some "Work", fun _ => true⟩

/-- An unclassified record with content. -/
def rec5 : Record := ⟨"r5", none, none, "writing code"⟩

/-- A run where only the category resolves (no time-type options). -/
def env5 : Env := ⟨none, ["Work"], [], some (200, [rec5]), fun _ => some "Work", fun _ => true⟩

/-- A record with both attributes already set. -/
def rec6 : Record := ⟨"r6", some "Work", some "TypeA", "already done"⟩

/-- A run over the already-classified `rec6`. -/
def env6 : Env := ⟨none, ["Work"], ["TypeA"], some (200, [rec6]), fun _ => none, fun _ => true⟩

/-- A run whose category vocabulary fetch came back empty. -/
def env7a : Env := ⟨none, [], ["TypeA"], some (200, []), fun _ => none, fun _ => true⟩

/-- A run with a category vocabulary but an empty time-type vocabulary. -/
def env7b : Env := ⟨none, ["Work"], [], some (200, []), fun _ => none, fun _ => true⟩

/-- A record whose content is whitespace only. -/
def rec8 : Record := ⟨"r8", none, none, "   "⟩

/-- A run over the blank-content `rec8`. -/
def env8 : Env := ⟨none, ["Work"], [], some (200, [rec8]), fun _ => none, fun _ => true⟩

/-- A run whose CLI date argument does not parse. -/
def env9 : Env := ⟨some "not-a-date", ["Work"], [], some (200, []), fun _ => none, fun _ => true⟩

/-! ## General lemmas -/

theorem find?_congrPred {α : Type} (p q : α → Bool) (h : ∀ a, p a = q a) :
    ∀ l : List α, l.find? p = l.find? q
  | [] => rfl
  | a :: l => by
    simp only [List.find?, h a]
    cases q a
    · exact find?_congrPred p q h l
    · rfl

theorem argOrEmpty_of_falsy (o : Option String) (h : truthy o = false) :
    (argOrEmpty o).data.isEmpty = true := by
  cases o with
  | none => rfl
  | some s =>
    simp only [truthy] at h
    simpa [argOrEmpty] using h

theorem resolve_classification_eq_threeTier (raw : String) (vocab : List String) :
    resolve_classification raw vocab = threeTierResolve raw vocab := by
  have h3 : vocab.find? (fun option =>
        containsSub (lowerChars raw) (lowerChars option) ||
        containsSub (lowerChars option) (lowerChars raw))
      = vocab.find? (fun label =>
        containsSub (lowerChars label) (lowerChars raw) ||
        containsSub (lowerChars raw) (lowerChars label)) :=
    find?_congrPred _ _ (fun a => Bool.or_comm _ _) vocab
  unfold resolve_classification threeTierResolve
  rw [h3]

theorem resolve_time_type_eq_threeTier (raw : String) (vocab : List String) :
    resolve_time_type raw vocab = threeTierResolve raw vocab := by
  have h3 : vocab.find? (fun option =>
        containsSub (lowerChars raw) (lowerChars option) ||
        containsSub (lowerChars option) (lowerChars raw))
      = vocab.find? (fun label =>
        containsSub (lowerChars label) (lowerChars raw) ||
        containsSub (lowerChars raw) (lowerChars label)) :=
    find?_congrPred _ _ (fun a => Bool.or_comm _ _) vocab
  unfold resolve_time_type threeTierResolve
  rw [h3]

/-! ## Claim theorems -/

/-- C1: resolution of a raw classifier answer against a vocabulary follows
the three-tier match policy (exact; case-insensitive first match;
substring containment either way, first match in vocabulary order; else
unresolved), in both `classify_time_record` and `determine_time_type`; in
particular for vocabulary `["Work", "Study"]` the answers `"work"`,
`"I think Work is correct"` and `"Leisure"` resolve to `"Work"`, `"Work"`
and `none`. -/
theorem resolution_follows_three_tier_policy (raw : String) (vocab : List String) :
    resolve_classification raw vocab = threeTierResolve raw vocab ∧
    resolve_time_type raw vocab = threeTierResolve raw vocab ∧
    resolve_classification "work" ["Work", "Study"] = some "Work" ∧
    resolve_classification "I think Work is correct" ["Work", "Study"] = some "Work" ∧
    resolve_classification "Leisure" ["Work", "Study"] = none :=
  ⟨resolve_classification_eq_threeTier raw vocab,
   resolve_time_type_eq_threeTier raw vocab,
   by decide, by decide, by decide⟩

/-- C2 (counterexample): an entry query answered with HTTP 500 carrying
results does not raise and does not abort: `get_time_records` returns the
empty list, the run returns `True`, and the process exit code is 0 —
against the claim that a transport failure fails with `TransportError` and
exit code 1. -/
theorem transport_failure_is_swallowed :
    get_time_records (some (500, [rec2])) = [] ∧
    process_time_records env2 = (true, ⟨true, true, [], [], 0⟩) ∧
    mainExitCode env2 = 0 :=
  ⟨rfl, rfl, rfl⟩

/-- C2 (amended): a transport failure (non-success HTTP status or network
error) while fetching the initial entry list yields an empty sequence, the
same as a store response reporting zero matches, and the run continues and
is reported as success (exit code 0); it is not distinguished from an
empty day and does not abort. -/
theorem transport_failure_yields_empty_and_success (env : Env)
    (hd : truthy env.targetDate = false)
    (hc : env.classificationOptions.isEmpty = false)
    (hr : ∀ status results, env.recordsResp = some (status, results) → status ≠ 200) :
    get_time_records env.recordsResp = [] ∧
    process_time_records env = (true, ⟨true, true, [], [], 0⟩) ∧
    mainExitCode env = 0 := by
  have hempty : get_time_records env.recordsResp = [] := by
    cases hresp : env.recordsResp with
    | none => rfl
    | some p =>
      obtain ⟨status, results⟩ := p
      have : status ≠ 200 := hr status results hresp
      simp [get_time_records, this]
  have hproc : process_time_records env = (true, ⟨true, true, [], [], 0⟩) := by
    unfold process_time_records
    rw [hd]
    simp only [Bool.false_eq_true, if_false]
    unfold processRun
    rw [hc]
    simp only [Bool.false_eq_true, if_false, hempty]
    rfl
  exact ⟨hempty, hproc, by unfold mainExitCode; rw [hproc]; rfl⟩


/-- C2 (witness for the amended theorem at the concrete HTTP-500 run). -/
theorem transport_failure_yields_empty_and_success_witness :
    get_time_records env2.recordsResp = [] ∧
    process_time_records env2 = (true, ⟨true, true, [], [], 0⟩) ∧
    mainExitCode env2 = 0 :=
  transport_failure_yields_empty_and_success env2 rfl rfl
    (by intro status results h; cases h; decide)

/-- C9: a truthy (non-empty) date argument that does not parse as
`YYYY-MM-DD` makes `process_time_records` return failure at once — no
vocabulary fetch, no entry fetch, no classifier call, no update call — and
the process exit code is 1. -/
theorem invalid_date_fails_before_any_fetch (env : Env) (d : String)
    (h1 : env.targetDate = some d)
    (h2 : d.data.isEmpty = false)
    (h3 : parseDate d = none) :
    process_time_records env = (false, ⟨false, false, [], [], 0⟩) ∧
    mainExitCode env = 1 := by
  have ht : truthy env.targetDate = true := by
    rw [h1]; simp [truthy, h2]
  have harg : argOrEmpty env.targetDate = d := by rw [h1]; rfl
  have hproc : process_time_records env = (false, ⟨false, false, [], [], 0⟩) := by
    unfold process_time_records
    rw [ht, harg, h3]
    rfl
  exact ⟨hproc, by unfold mainExitCode; rw [hproc]; rfl⟩

/-- C9 (witness at the concrete run with date argument `"not-a-date"`). -/
theorem invalid_date_fails_before_any_fetch_witness :
    process_time_records env9 = (false, ⟨false, false, [], [], 0⟩) ∧
    mainExitCode env9 = 1 :=
  invalid_date_fails_before_any_fetch env9 "not-a-date" rfl (by decide) (by decide)

theorem processRun_succeeds (env : Env)
    (hc : env.classificationOptions.isEmpty = false) :
    (processRun env).1 = true ∧ (processRun env).2.recordsFetched = true := by
  rcases hr : runRecords env (get_time_records env.recordsResp) with ⟨a, b, c⟩
  by_cases hrecs : (get_time_records env.recordsResp).isEmpty = true
  · simp [processRun, hc, hrecs]
  · simp [processRun, hc, hrecs, hr]

/-- C7: an empty category vocabulary aborts the run with failure before any
entry fetch (the trace records the vocabulary fetch but no entry fetch and
no calls), while a run with a non-empty category vocabulary and an empty
time-type vocabulary is not aborted: it fetches its entries and succeeds. -/
theorem empty_category_vocabulary_aborts (env env' : Env)
    (h : env.classificationOptions.isEmpty = true)
    (hd : truthy env.targetDate = false)
    (h' : env'.classificationOptions.isEmpty = false)
    (hd' : truthy env'.targetDate = false)
    (htt : env'.timeTypeOptions = []) :
    process_time_records env = (false, ⟨true, false, [], [], 0⟩) ∧
    (process_time_records env').1 = true ∧
    (process_time_records env').2.recordsFetched = true := by
  have heq' : process_time_records env' = processRun env' := by
    simp [process_time_records, hd']
  refine ⟨?_, ?_, ?_⟩
  · simp only [process_time_records, hd, Bool.false_eq_true, if_false]
    simp [processRun, h]
  · rw [heq']; exact (processRun_succeeds env' h').1
  · rw [heq']; exact (processRun_succeeds env' h').2

/-- C7 (witness at the concrete runs `env7a` — empty category vocabulary —
and `env7b` — empty time-type vocabulary only). -/
theorem empty_category_vocabulary_aborts_witness :
    process_time_records env7a = (false, ⟨true, false, [], [], 0⟩) ∧
    (process_time_records env7b).1 = true ∧
    (process_time_records env7b).2.recordsFetched = true :=
  empty_category_vocabulary_aborts env7a env7b rfl rfl rfl rfl rfl

/-- C6: a record whose category and time type are both already (truthily)
set is skipped: its processing issues no classifier call and no update
call and counts nothing, and a run over just such a record succeeds with
an empty call trace — re-running `process` over it is a no-op. -/
theorem fully_classified_record_skipped (env : Env) (r : Record)
    (h1 : truthy r.classification = true)
    (h2 : truthy r.timeType = true)
    (hrec : env.recordsResp = some (200, [r]))
    (hd : truthy env.targetDate = false)
    (hc : env.classificationOptions.isEmpty = false) :
    processRecord env r = ([], [], 0) ∧
    process_time_records env = (true, ⟨true, true, [], [], 0⟩) := by
  have hpr : processRecord env r = ([], [], 0) := by
    simp [processRecord, h1, h2]
  have hrecs : get_time_records env.recordsResp = [r] := by
    rw [hrec]; rfl
  have hrun : runRecords env [r] = ([], [], 0) := by
    simp [runRecords, hpr]
  refine ⟨hpr, ?_⟩
  simp only [process_time_records, hd, Bool.false_eq_true, if_false]
  simp [processRun, hc, hrecs, hrun]

/-- C6 (witness at the concrete fully-classified record `rec6`). -/
theorem fully_classified_record_skipped_witness :
    processRecord env6 rec6 = ([], [], 0) ∧
    process_time_records env6 = (true, ⟨true, true, [], [], 0⟩) :=
  fully_classified_record_skipped env6 rec6 rfl rfl rfl rfl rfl

/-- C8: a record that is not fully classified and whose content is blank
after stripping is skipped — no classifier call, no update call, nothing
counted — and a run over just such a record still succeeds (the skip is
not an error). -/
theorem blank_content_record_skipped (env : Env) (r : Record)
    (h1 : (truthy r.classification && truthy r.timeType) = false)
    (h2 : (stripChars r.content.data).isEmpty = true)
    (hrec : env.recordsResp = some (200, [r]))
    (hd : truthy env.targetDate = false)
    (hc : env.classificationOptions.isEmpty = false) :
    processRecord env r = ([], [], 0) ∧
    process_time_records env = (true, ⟨true, true, [], [], 0⟩) := by
  have hpr : processRecord env r = ([], [], 0) := by
    simp [processRecord, h1, h2]
  have hrecs : get_time_records env.recordsResp = [r] := by
    rw [hrec]; rfl
  have hrun : runRecords env [r] = ([], [], 0) := by
    simp [runRecords, hpr]
  refine ⟨hpr, ?_⟩
  simp only [process_time_records, hd, Bool.false_eq_true, if_false]
  simp [processRun, hc, hrecs, hrun]

/-- C8 (witness at the concrete whitespace-content record `rec8`). -/
theorem blank_content_record_skipped_witness :
    processRecord env8 rec8 = ([], [], 0) ∧
    process_time_records env8 = (true, ⟨true, true, [], [], 0⟩) :=
  blank_content_record_skipped env8 rec8 rfl (by decide) rfl rfl rfl

theorem empty_string_data_isEmpty : ("" : String).data.isEmpty = true := rfl

theorem updatePayload_none_none (c t : String)
    (hc : c.data.isEmpty = true) (ht : t.data.isEmpty = true) :
    updatePayload c t = ⟨none, none⟩ := by
  simp [updatePayload, hc, ht]

theorem updatePayload_classification_only (c t : String)
    (hc : c.data.isEmpty = false) (ht : t.data.isEmpty = true) :
    updatePayload c t = ⟨some c, none⟩ := by
  simp [updatePayload, hc, ht]

/-- C5: the update is a partial one. At the gateway, an empty attribute
argument is omitted from the PATCH payload. At the engine, for a processed
record whose category resolves to `v` and whose time type does not (no
time-type vocabulary), the one update call carries the category and omits
the time type, so the stored time type is left untouched. -/
theorem partial_update_omits_unresolved_attribute (env : Env) (r : Record) (v : String)
    (h1 : truthy r.classification = false)
    (h2 : truthy r.timeType = false)
    (h3 : (stripChars r.content.data).isEmpty = false)
    (h4 : classify_time_record env.llm r.content env.classificationOptions = some v)
    (hv : v.data.isEmpty = false)
    (h5 : env.timeTypeOptions = []) :
    processRecord env r =
      ([build_classification_prompt r.content env.classificationOptions],
       [(r.id, { classification := some v, timeType := none })],
       if env.updateOutcome r.id then 1 else 0) ∧
    (updatePayload v "").classification = some v ∧
    (updatePayload v "").timeType = none := by
  have ht := argOrEmpty_of_falsy r.timeType h2
  have hpay : updatePayload (argOrEmpty (some v)) (argOrEmpty r.timeType) =
      ⟨some v, none⟩ := by
    simpa [argOrEmpty] using updatePayload_classification_only v (argOrEmpty r.timeType) hv ht
  refine ⟨?_, ?_, ?_⟩
  · simp [processRecord, h1, h2, h3, h4, h5, hpay]
  · simp [updatePayload, hv]
  · simp [updatePayload, empty_string_data_isEmpty]

/-- C5 (witness at the concrete run `env5` where only the category
resolves). -/
theorem partial_update_omits_unresolved_attribute_witness :
    processRecord env5 rec5 =
      ([build_classification_prompt rec5.content env5.classificationOptions],
       [(rec5.id, { classification := some "Work", timeType := none })],
       if env5.updateOutcome rec5.id then 1 else 0) ∧
    (updatePayload "Work" "").classification = some "Work" ∧
    (updatePayload "Work" "").timeType = none :=
  partial_update_omits_unresolved_attribute env5 rec5 "Work" rfl rfl (by decide)
    (by decide) (by decide) rfl

/-- C3 (counterexample): in the run `env3` the single record `rec3` is
processed, neither attribute resolves (the model returns nothing and there
is no time-type vocabulary), and still an update call is issued for it —
against the claim that no persist call is issued for such an entry. -/
theorem no_resolution_still_issues_update :
    (process_time_records env3).2.updateCalls =
      [("r3", { classification := none, timeType := none })] ∧
    (process_time_records env3).2.updateCalls ≠ [] := by
  refine ⟨rfl, ?_⟩
  have h : (process_time_records env3).2.updateCalls =
      [("r3", ({ classification := none, timeType := none } : UpdatePayload))] := rfl
  rw [h]
  simp

/-- C3 (amended): for a processed entry for which neither attribute
resolves, an update call is still issued, but its payload is empty — no
attribute is included in the PATCH body, so nothing is written. -/
theorem unresolved_entry_gets_empty_payload_update (env : Env) (r : Record)
    (h1 : truthy r.classification = false)
    (h2 : truthy r.timeType = false)
    (h3 : (stripChars r.content.data).isEmpty = false)
    (h4 : classify_time_record env.llm r.content env.classificationOptions = none)
    (h5 : env.timeTypeOptions ≠ [] →
      determine_time_type env.llm r.content env.timeTypeOptions = none) :
    (processRecord env r).2.1 =
      [(r.id, { classification := none, timeType := none })] := by
  have ht := argOrEmpty_of_falsy r.timeType h2
  by_cases hop : env.timeTypeOptions.isEmpty = true
  · have hpay : updatePayload (argOrEmpty (none : Option String)) (argOrEmpty r.timeType) =
        ⟨none, none⟩ :=
      updatePayload_none_none _ _ rfl ht
    simp [processRecord, h1, h2, h3, h4, hop, hpay]
  · have hne : env.timeTypeOptions ≠ [] := by
      intro heq; exact hop (by simp [heq])
    have hdet := h5 hne
    have hpay : updatePayload (argOrEmpty (none : Option String))
        (argOrEmpty (none : Option String)) = ⟨none, none⟩ :=
      updatePayload_none_none _ _ rfl rfl
    simp [processRecord, h1, h2, h3, h4, hop, hdet, hpay]

/-- C3 (witness at the concrete run `env3`). -/
theorem unresolved_entry_gets_empty_payload_update_witness :
    (processRecord env3 rec3).2.1 =
      [("r3", { classification := none, timeType := none })] :=
  unresolved_entry_gets_empty_payload_update env3 rec3 rfl rfl (by decide) rfl
    (fun h => absurd rfl h)

/-- C4 (counterexample): record `rec4` has its category already set to
`"Work"` and its time type missing; processing it resolves the time type
to `"TypeA"`, and the issued update call re-sends the already-set category
`"Work"` in its payload — against the claim that an already-set field is
never re-sent in the update. -/
theorem already_set_attribute_resent_in_update :
    rec4.classification = some "Work" ∧
    (processRecord env4 rec4).2.1 =
      [("r4", { classification := some "Work", timeType := some "TypeA" })] :=
  ⟨rfl, rfl⟩

/-- C4 (amended): for an entry with exactly one of category/time type
already set (and non-blank content), processing classifies only the
missing attribute — the single classifier call is the one for the missing
attribute — but the update call re-sends the already-set attribute with
its current stored value (a same-value write: the stored value cannot
change), rather than omitting it from the payload. -/
theorem only_missing_attribute_classified (env env' : Env) (r r' : Record)
    (s s' : String)
    (ha1 : r.classification = some s) (ha2 : s.data.isEmpty = false)
    (ha3 : truthy r.timeType = false)
    (ha4 : (stripChars r.content.data).isEmpty = false)
    (ha5 : env.timeTypeOptions.isEmpty = false)
    (hb1 : r'.timeType = some s') (hb2 : s'.data.isEmpty = false)
    (hb3 : truthy r'.classification = false)
    (hb4 : (stripChars r'.content.data).isEmpty = false) :
    ((processRecord env r).1 = [build_time_type_prompt r.content env.timeTypeOptions] ∧
     (processRecord env r).2.1 = [(r.id,
       updatePayload s (argOrEmpty (determine_time_type env.llm r.content env.timeTypeOptions)))] ∧
     (updatePayload s
       (argOrEmpty (determine_time_type env.llm r.content env.timeTypeOptions))).classification
         = some s) ∧
    ((processRecord env' r').1 =
       [build_classification_prompt r'.content env'.classificationOptions] ∧
     (processRecord env' r').2.1 = [(r'.id,
       updatePayload (argOrEmpty (classify_time_record env'.llm r'.content env'.classificationOptions)) s')] ∧
     (updatePayload
       (argOrEmpty (classify_time_record env'.llm r'.content env'.classificationOptions)) s').timeType
         = some s') := by
  have htr : truthy r.classification = true := by
    rw [ha1]; simp [truthy, ha2]
  have htr' : truthy r'.timeType = true := by
    rw [hb1]; simp [truthy, hb2]
  have hts : truthy (some s) = true := by simp [truthy, ha2]
  have hts' : truthy (some s') = true := by simp [truthy, hb2]
  constructor
  · refine ⟨?_, ?_, ?_⟩
    · simp [processRecord, htr, ha3, ha4, ha5]
    · simp [processRecord, htr, ha3, ha4, ha5, ha1, hts, argOrEmpty]
    · simp [updatePayload, ha2]
  · refine ⟨?_, ?_, ?_⟩
    · simp [processRecord, htr', hb3, hb4]
    · simp [processRecord, htr', hb3, hb4, hb1, hts', argOrEmpty]
    · simp [updatePayload, hb2]

/-- C4 (witness at the concrete runs `env4`/`rec4` — category set, time
type missing — and `env4b`/`rec4b` — time type set, category missing). -/
theorem only_missing_attribute_classified_witness :
    ((processRecord env4 rec4).1 =
       [build_time_type_prompt rec4.content env4.timeTypeOptions] ∧
     (processRecord env4 rec4).2.1 = [(rec4.id,
       updatePayload "Work" (argOrEmpty (determine_time_type env4.llm rec4.content env4.timeTypeOptions)))] ∧
     (updatePayload "Work"
       (argOrEmpty (determine_time_type env4.llm rec4.content env4.timeTypeOptions))).classification
         = some "Work") ∧
    ((processRecord env4b rec4b).1 =
       [build_classification_prompt rec4b.content env4b.classificationOptions] ∧
     (processRecord env4b rec4b).2.1 = [(rec4b.id,
       updatePayload (argOrEmpty (classify_time_record env4b.llm rec4b.content env4b.classificationOptions)) "TypeA")] ∧
     (updatePayload
       (argOrEmpty (classify_time_record env4b.llm rec4b.content env4b.classificationOptions)) "TypeA").timeType
         = some "TypeA") :=
  only_missing_attribute_classified env4 env4b rec4 rec4b "Work" "TypeA"
    rfl (by decide) rfl (by decide) rfl rfl (by decide) rfl (by decide)

theorem removeTags_nil : removeTags [] = [] := by rw [removeTags]

theorem removeTags_cons_ne (c : Char) (rest : List Char) (h : (c == '<') = false) :
    removeTags (c :: rest) = c :: removeTags rest := by
  rw [removeTags]
  simp [h]

theorem removeTags_lt_noGt (rest : List Char) (h : rest.dropWhile notGt = []) :
    removeTags ('<' :: rest) = '<' :: removeTags rest := by
  rw [removeTags]
  simp only [beq_self_eq_true, if_true]
  split
  · rfl
  · rename_i heq
    rw [h] at heq
    simp at heq

theorem removeTags_lt_emptyTake (rest : List Char) (x : Char) (rest2 : List Char)
    (h : rest.dropWhile notGt = x :: rest2)
    (h2 : (rest.takeWhile notGt).isEmpty = true) :
    removeTags ('<' :: rest) = '<' :: removeTags rest := by
  rw [removeTags]
  simp only [beq_self_eq_true, if_true]
  split
  · rfl
  · simp only [h2, if_true]

theorem removeTags_lt_found (rest : List Char) (x : Char) (rest2 : List Char)
    (h : rest.dropWhile notGt = x :: rest2)
    (h2 : (rest.takeWhile notGt).isEmpty = false) :
    removeTags ('<' :: rest) = removeTags rest2 := by
  rw [removeTags]
  simp only [beq_self_eq_true, if_true]
  split
  · rename_i heq
    rw [h] at heq
    simp at heq
  · rename_i y ys heq
    rw [h] at heq
    cases heq
    simp [h2]

theorem hasTag_nil : hasTag [] = false := rfl

theorem hasTag_cons_ne (c : Char) (rest : List Char) (h : (c == '<') = false) :
    hasTag (c :: rest) = hasTag rest := by
  rw [hasTag]
  simp [h]

theorem hasTag_lt_noGt (rest : List Char) (h : rest.dropWhile notGt = []) :
    hasTag ('<' :: rest) = hasTag rest := by
  rw [hasTag]
  simp [h]

theorem hasTag_lt_emptyTake (rest : List Char) (x : Char) (rest2 : List Char)
    (h : rest.dropWhile notGt = x :: rest2)
    (h2 : (rest.takeWhile notGt).isEmpty = true) :
    hasTag ('<' :: rest) = hasTag rest := by
  rw [hasTag]
  simp [h, h2]

theorem hasTag_lt_found (rest : List Char) (x : Char) (rest2 : List Char)
    (h : rest.dropWhile notGt = x :: rest2)
    (h2 : (rest.takeWhile notGt).isEmpty = false) :
    hasTag ('<' :: rest) = true := by
  rw [hasTag]
  simp [h, h2]

theorem takeWhile_length_eq_iff {α : Type} (p : α → Bool) (l : List α) :
    ((l.takeWhile p).length = l.length) ↔ l.dropWhile p = [] := by
  have h := congrArg List.length (List.takeWhile_append_dropWhile (p := p) (l := l))
  rw [List.length_append] at h
  constructor
  · intro hl
    have hz : (l.dropWhile p).length = 0 := by omega
    exact List.length_eq_zero.mp hz
  · intro hd
    rw [hd] at h
    simpa using h

theorem dropWhile_append_nil {α : Type} {p : α → Bool} {a b : List α}
    (h : a.dropWhile p = []) : (a ++ b).dropWhile p = b.dropWhile p := by
  rw [List.dropWhile_append]
  simp [h]

theorem dropWhile_append_cons {α : Type} {p : α → Bool} {a b : List α} {x : α} {xs : List α}
    (h : a.dropWhile p = x :: xs) : (a ++ b).dropWhile p = x :: (xs ++ b) := by
  rw [List.dropWhile_append]
  simp [h]

theorem takeWhile_append_full {α : Type} {p : α → Bool} {a b : List α}
    (h : a.dropWhile p = []) : (a ++ b).takeWhile p = a ++ b.takeWhile p := by
  rw [List.takeWhile_append]
  rw [if_pos ((takeWhile_length_eq_iff p a).mpr h)]

theorem takeWhile_append_stop {α : Type} {p : α → Bool} {a b : List α}
    (h : a.dropWhile p ≠ []) : (a ++ b).takeWhile p = a.takeWhile p := by
  rw [List.takeWhile_append]
  rw [if_neg (fun hlen => h ((takeWhile_length_eq_iff p a).mp hlen))]

theorem takeWhile_eq_self_of_dropWhile_nil {α : Type} {p : α → Bool} {a : List α}
    (h : a.dropWhile p = []) : a.takeWhile p = a := by
  have hfull := List.takeWhile_append_dropWhile (p := p) (l := a)
  rw [h] at hfull
  simpa using hfull

theorem hasTag_cons_false {c : Char} {rest : List Char}
    (hf : hasTag (c :: rest) = false) : hasTag rest = false := by
  by_cases hc : (c == '<') = true
  · have hc' : c = '<' := eq_of_beq hc
    subst hc'
    rcases hdw : rest.dropWhile notGt with _ | ⟨x, xs⟩
    · rwa [hasTag_lt_noGt rest hdw] at hf
    · by_cases htw : (rest.takeWhile notGt).isEmpty = true
      · rwa [hasTag_lt_emptyTake rest x xs hdw htw] at hf
      · rw [hasTag_lt_found rest x xs hdw (by simpa using htw)] at hf
        exact absurd hf (by simp)
  · rwa [hasTag_cons_ne c rest (by simpa using hc)] at hf

theorem hasTag_append_right {b : List Char} :
    ∀ {a : List Char}, hasTag (a ++ b) = false → hasTag b = false
  | [], h => h
  | _ :: _, h => hasTag_append_right (hasTag_cons_false h)

theorem hasTag_append_left :
    ∀ {a : List Char} {b : List Char}, hasTag (a ++ b) = false → hasTag a = false
  | [], _, _ => rfl
  | c :: rest, b, h => by
    by_cases hc : (c == '<') = true
    · have hc' : c = '<' := eq_of_beq hc
      subst hc'
      rw [List.cons_append] at h
      rcases hdw : rest.dropWhile notGt with _ | ⟨x, xs⟩
      · -- no '>' in rest: in (rest ++ b) the dropWhile continues into b
        rw [hasTag_lt_noGt rest hdw]
        rcases hdb : b.dropWhile notGt with _ | ⟨y, ys⟩
        · have hdab : (rest ++ b).dropWhile notGt = [] := by
            rw [dropWhile_append_nil hdw, hdb]
          rw [hasTag_lt_noGt _ hdab] at h
          exact hasTag_append_left h
        · have hdab : (rest ++ b).dropWhile notGt = y :: ys := by
            rw [dropWhile_append_nil hdw, hdb]
          have htab : (rest ++ b).takeWhile notGt = rest ++ b.takeWhile notGt :=
            takeWhile_append_full hdw
          by_cases hemp : ((rest ++ b).takeWhile notGt).isEmpty = true
          · rw [hasTag_lt_emptyTake _ y ys hdab hemp] at h
            exact hasTag_append_left h
          · rw [hasTag_lt_found _ y ys hdab (by simpa using hemp)] at h
            exact absurd h (by simp)
      · -- rest contains '>': the match is decided inside rest
        have hdab : (rest ++ b).dropWhile notGt = x :: (xs ++ b) :=
          dropWhile_append_cons hdw
        have htab : (rest ++ b).takeWhile notGt = rest.takeWhile notGt :=
          takeWhile_append_stop (by rw [hdw]; exact List.cons_ne_nil x xs)
        by_cases htw : (rest.takeWhile notGt).isEmpty = true
        · rw [hasTag_lt_emptyTake rest x xs hdw htw]
          rw [hasTag_lt_emptyTake _ x (xs ++ b) hdab (by rw [htab]; exact htw)] at h
          exact hasTag_append_left h
        · rw [hasTag_lt_found _ x (xs ++ b) hdab
            (by rw [htab]; simpa using htw)] at h
          exact absurd h (by simp)
    · have hcf : (c == '<') = false := by simpa using hc
      rw [hasTag_cons_ne c rest hcf]
      rw [List.cons_append, hasTag_cons_ne c (rest ++ b) hcf] at h
      exact hasTag_append_left h

theorem hasTag_infix_false {a b : List Char} (hinf : a <:+: b)
    (h : hasTag b = false) : hasTag a = false := by
  obtain ⟨s, t, hst⟩ := hinf
  subst hst
  rw [List.append_assoc] at h
  exact hasTag_append_left (hasTag_append_right h)

theorem removeTags_sublist : ∀ l : List Char, (removeTags l).Sublist l := by
  intro l
  induction l using removeTags.induct
  case case1 => rw [removeTags_nil]
  case case2 a b hc hdw ih =>
    have ha : a = '<' := eq_of_beq hc
    subst ha
    rw [removeTags_lt_noGt b hdw]
    exact ih.cons₂ '<'
  case case3 c rest hc x rest2 hdw htw ih =>
    have ha : c = '<' := eq_of_beq hc
    subst ha
    rw [removeTags_lt_emptyTake rest x rest2 hdw htw]
    exact ih.cons₂ '<'
  case case4 c rest hc x rest2 hdw htw ih =>
    have ha : c = '<' := eq_of_beq hc
    subst ha
    rw [removeTags_lt_found rest x rest2 hdw (by simpa using htw)]
    have h1 : rest2.Sublist (x :: rest2) := List.sublist_cons_self x rest2
    have h2 : (x :: rest2).Sublist rest := by
      rw [← hdw]; exact List.dropWhile_sublist notGt
    exact ih.trans ((h1.trans h2).cons '<')
  case case5 c rest hc ih =>
    rw [removeTags_cons_ne c rest (by simpa using hc)]
    exact ih.cons₂ c

theorem not_mem_removeTags {y : Char} {l : List Char} (h : y ∉ l) :
    y ∉ removeTags l := fun hy => h ((removeTags_sublist l).subset hy)

theorem hasTag_removeTags : ∀ l : List Char, hasTag (removeTags l) = false := by
  intro l
  induction l using removeTags.induct
  case case1 => rw [removeTags_nil]; rfl
  case case2 b rest hc hdw ih =>
    have ha : b = '<' := eq_of_beq hc
    subst ha
    rw [removeTags_lt_noGt rest hdw]
    -- rest contains no '>', so neither does removeTags rest
    have hnogt : ∀ z ∈ rest, notGt z = true := List.dropWhile_eq_nil_iff.mp hdw
    have hdw2 : (removeTags rest).dropWhile notGt = [] :=
      List.dropWhile_eq_nil_iff.mpr
        (fun z hz => hnogt z ((removeTags_sublist rest).subset hz))
    rw [hasTag_lt_noGt _ hdw2]
    exact ih
  case case3 c rest hc x rest2 hdw htw ih =>
    have ha : c = '<' := eq_of_beq hc
    subst ha
    rw [removeTags_lt_emptyTake rest x rest2 hdw htw]
    -- takeWhile empty and dropWhile = x :: rest2 force rest = x :: rest2 with x = '>'
    have hrest : rest = x :: rest2 := by
      have hfull := List.takeWhile_append_dropWhile (p := notGt) (l := rest)
      rw [List.isEmpty_iff.mp htw, hdw] at hfull
      simpa using hfull.symm
    have hx : notGt x = false := by
      have h1 : rest.takeWhile notGt = [] := List.isEmpty_iff.mp htw
      rw [hrest, List.takeWhile_cons] at h1
      by_contra hcon
      have h2 : notGt x = true := by simpa using hcon
      rw [h2] at h1
      simp at h1
    have hx' : x = '>' := by
      by_contra hne
      rw [notGt] at hx
      simp [hne] at hx
    subst hx'
    subst hrest
    -- removeTags ('>' :: rest2) = '>' :: removeTags rest2
    rw [removeTags_cons_ne '>' rest2 (by decide)] at ih ⊢
    have hdw3 : ('>' :: removeTags rest2).dropWhile notGt = '>' :: removeTags rest2 := by
      rw [List.dropWhile_cons]
      simp [notGt]
    have htw3 : (('>' : Char) :: removeTags rest2).takeWhile notGt = [] := by
      rw [List.takeWhile_cons]
      simp [notGt]
    rw [hasTag_lt_emptyTake ('>' :: removeTags rest2) '>' (removeTags rest2) hdw3
      (by rw [htw3]; rfl)]
    exact ih
  case case4 c rest hc x rest2 hdw htw ih =>
    have ha : c = '<' := eq_of_beq hc
    subst ha
    rw [removeTags_lt_found rest x rest2 hdw (by simpa using htw)]
    exact ih
  case case5 c rest hc ih =>
    rw [removeTags_cons_ne c rest (by simpa using hc)]
    rw [hasTag_cons_ne c _ (by simpa using hc)]
    exact ih

theorem removeTags_of_no_tag : ∀ l : List Char, hasTag l = false → removeTags l = l := by
  intro l
  induction l using removeTags.induct
  case case1 => intro _; rw [removeTags_nil]
  case case2 b rest hc hdw ih =>
    intro h
    have ha : b = '<' := eq_of_beq hc
    subst ha
    rw [removeTags_lt_noGt rest hdw, ih (hasTag_cons_false h)]
  case case3 c rest hc x rest2 hdw htw ih =>
    intro h
    have ha : c = '<' := eq_of_beq hc
    subst ha
    rw [removeTags_lt_emptyTake rest x rest2 hdw htw, ih (hasTag_cons_false h)]
  case case4 c rest hc x rest2 hdw htw ih =>
    intro h
    have ha : c = '<' := eq_of_beq hc
    subst ha
    rw [hasTag_lt_found rest x rest2 hdw (by simpa using htw)] at h
    exact absurd h (by simp)
  case case5 c rest hc ih =>
    intro h
    rw [removeTags_cons_ne c rest (by simpa using hc), ih (hasTag_cons_false h)]

theorem dropWhile_eq_self_mono {α : Type} {p : α → Bool} {A B : List α}
    (hBA : B <+: A) (hA : A.dropWhile p = A) : B.dropWhile p = B := by
  cases B with
  | nil => rfl
  | cons b B' =>
    obtain ⟨t, ht⟩ := hBA
    rw [← ht, List.cons_append, List.dropWhile_cons] at hA
    rw [List.dropWhile_cons]
    by_cases hb : p b = true
    · rw [if_pos hb] at hA
      have hle := (List.dropWhile_sublist (p := p) (l := B' ++ t)).length_le
      rw [hA] at hle
      simp at hle
    · simp [hb]

theorem stripChars_idem (l : List Char) : stripChars (stripChars l) = stripChars l := by
  unfold stripChars
  have h1 : List.dropWhile pyWhitespace
      (List.rdropWhile pyWhitespace (List.dropWhile pyWhitespace l)) =
      List.rdropWhile pyWhitespace (List.dropWhile pyWhitespace l) :=
    dropWhile_eq_self_mono
      ( List.rdropWhile_prefix pyWhitespace (List.dropWhile pyWhitespace l))
      (List.dropWhile_idempotent pyWhitespace l)
  rw [h1, List.rdropWhile_idempotent]

theorem stripChars_isInfix_self (l : List Char) : stripChars l <:+: l := by
  unfold stripChars
  exact ( List.rdropWhile_prefix pyWhitespace (List.dropWhile pyWhitespace l)).isInfix.trans
    (List.dropWhile_suffix pyWhitespace).isInfix

theorem splitOnChar_ne_nil (sep : Char) (l : List Char) : splitOnChar sep l ≠ [] := by
  induction l with
  | nil => simp [splitOnChar]
  | cons c rest ih =>
    by_cases hc : (c == sep) = true
    · simp [splitOnChar, hc]
    · rcases hs : splitOnChar sep rest with _ | ⟨l0, ls⟩
      · exact absurd hs ih
      · simp [splitOnChar, hc, hs]

theorem splitOnChar_head_isPre (sep : Char) (l : List Char) :
    ∃ l0 ls, splitOnChar sep l = l0 :: ls ∧ l0 <+: l := by
  induction l with
  | nil => exact ⟨[], [], rfl, List.nil_prefix⟩
  | cons c rest ih =>
    by_cases hc : (c == sep) = true
    · exact ⟨[], splitOnChar sep rest, by simp [splitOnChar, hc], List.nil_prefix⟩
    · obtain ⟨l0, ls, heq, hpre⟩ := ih
      refine ⟨c :: l0, ls, ?_, ?_⟩
      · simp [splitOnChar, hc, heq]
      · exact List.cons_prefix_cons.mpr ⟨rfl, hpre⟩

theorem mem_splitOnChar {sep : Char} {l L : List Char}
    (h : L ∈ splitOnChar sep l) : L <:+: l ∧ sep ∉ L := by
  induction l generalizing L with
  | nil =>
    simp [splitOnChar] at h
    subst h
    exact ⟨List.nil_infix, by simp⟩
  | cons c rest ih =>
    by_cases hc : (c == sep) = true
    · simp only [splitOnChar, hc, if_true] at h
      rcases List.mem_cons.mp h with h1 | h2
      · subst h1
        exact ⟨List.nil_infix, by simp⟩
      · obtain ⟨hinf, hmem⟩ := ih h2
        exact ⟨hinf.trans (List.suffix_cons c rest).isInfix, hmem⟩
    · obtain ⟨l0, ls, heq, hpre⟩ := splitOnChar_head_isPre sep rest
      simp only [splitOnChar, hc, if_false, heq] at h
      have hcs : c ≠ sep := by
        intro he
        exact hc (by simp [he])
      rcases List.mem_cons.mp h with h1 | h2
      · subst h1
        constructor
        · exact (List.cons_prefix_cons.mpr ⟨rfl, hpre⟩).isInfix
        · have hl0 := ih (heq ▸ List.mem_cons_self l0 ls)
          intro hmem
          rcases List.mem_cons.mp hmem with h3 | h4
          · exact hcs h3.symm
          · exact hl0.2 h4
      · have hrec := ih (by rw [heq]; exact List.mem_cons_of_mem l0 h2)
        exact ⟨hrec.1.trans (List.suffix_cons c rest).isInfix, hrec.2⟩

theorem splitOnChar_of_not_mem {sep : Char} {l : List Char} (h : sep ∉ l) :
    splitOnChar sep l = [l] := by
  induction l with
  | nil => rfl
  | cons c rest ih =>
    have hrest : sep ∉ rest := fun hm => h (List.mem_cons_of_mem c hm)
    have hcne : c ≠ sep := fun he => h (he ▸ List.mem_cons_self c rest)
    have hc : (c == sep) = false := by simp [hcne]
    simp [splitOnChar, hc, ih hrest]

theorem containsSub_iff {n h : List Char} : containsSub n h = true ↔ n <:+: h := by
  unfold containsSub
  rw [List.any_eq_true]
  constructor
  · rintro ⟨t, ht, hp⟩
    exact (List.isPrefixOf_iff_prefix.mp hp).isInfix.trans
      ((List.mem_tails t h).mp ht).isInfix
  · intro hinf
    obtain ⟨s, t, hst⟩ := hinf
    refine ⟨n ++ t, ?_, ?_⟩
    · rw [List.mem_tails]
      exact ⟨s, by rw [← hst, List.append_assoc]⟩
    · exact List.isPrefixOf_iff_prefix.mpr (List.prefix_append n t)

theorem hasTag_of_containsThink {l : List Char}
    (h : containsSub thinkOpen l = true) : hasTag l = true := by
  have hinf := containsSub_iff.mp h
  by_contra hfalse
  have hf : hasTag l = false := by simpa using hfalse
  have hcontra := hasTag_infix_false hinf hf
  exact absurd hcontra (by decide)

theorem cleanChars_fixed {r : List Char}
    (h1 : stripChars r = r) (h2 : hasTag r = false)
    (h3 : isLongOrExplanatory r = true → extractShortLine r = r) :
    cleanChars r = r := by
  have hthink : containsSub thinkOpen r = false := by
    by_contra hcon
    have hct : containsSub thinkOpen r = true := by simpa using hcon
    rw [hasTag_of_containsThink hct] at h2
    exact absurd h2 (by simp)
  have hrt : removeTags r = r := removeTags_of_no_tag r h2
  unfold cleanChars
  simp only [h1, hthink, Bool.false_eq_true, if_false, hrt]
  by_cases hlong : isLongOrExplanatory r = true
  · rw [if_pos hlong, h3 hlong]
  · rw [if_neg hlong]

theorem cleanChars_idem (l : List Char) : cleanChars (cleanChars l) = cleanChars l := by
  have key : ∀ c3 : List Char, stripChars c3 = c3 → hasTag c3 = false →
      cleanChars (if isLongOrExplanatory c3 = true then extractShortLine c3 else c3) =
      (if isLongOrExplanatory c3 = true then extractShortLine c3 else c3) := by
    intro c3 hstrip htag
    by_cases hlong : isLongOrExplanatory c3 = true
    · rw [if_pos hlong]
      rcases hfind : (splitOnChar '\n' c3).reverse.findSome?
          (fun ln => let s := stripChars ln; if goodLine s then some s else none)
        with _ | L
      · have hext : extractShortLine c3 = c3 := by
          unfold extractShortLine
          rw [hfind]
        rw [hext]
        exact cleanChars_fixed hstrip htag (fun _ => hext)
      · have hext : extractShortLine c3 = L := by
          unfold extractShortLine
          rw [hfind]
        rw [hext]
        obtain ⟨ln, hmem, hf⟩ := List.exists_of_findSome?_eq_some hfind
        have hln := mem_splitOnChar (List.mem_reverse.mp hmem)
        by_cases hg : goodLine (stripChars ln) = true
        · have hL : stripChars ln = L := by
            simpa [hg] using hf
          have hstripL : stripChars L = L := by rw [← hL, stripChars_idem]
          have hLinf : L <:+: c3 := by
            rw [← hL]
            exact (stripChars_isInfix_self ln).trans hln.1
          have htagL : hasTag L = false := hasTag_infix_false hLinf htag
          have hgood : goodLine L = true := by rw [← hL]; exact hg
          have hnoNL : '\n' ∉ L := by
            intro hm
            exact hln.2 ((stripChars_isInfix_self ln).sublist.subset
              (by rw [hL]; exact hm))
          have hextL : extractShortLine L = L := by
            unfold extractShortLine
            rw [splitOnChar_of_not_mem hnoNL]
            simp [List.findSome?, hstripL, hgood]
          exact cleanChars_fixed hstripL htagL (fun _ => hextL)
        · exfalso
          simp [hg] at hf
    · rw [if_neg hlong]
      exact cleanChars_fixed hstrip htag (fun hcon => absurd hcon hlong)
  have final : ∀ c2 : List Char,
      cleanChars (if isLongOrExplanatory (stripChars (removeTags c2)) = true
          then extractShortLine (stripChars (removeTags c2))
          else stripChars (removeTags c2)) =
        (if isLongOrExplanatory (stripChars (removeTags c2)) = true
          then extractShortLine (stripChars (removeTags c2))
          else stripChars (removeTags c2)) := fun c2 =>
    key (stripChars (removeTags c2)) (stripChars_idem _)
      (hasTag_infix_false (stripChars_isInfix_self _) (hasTag_removeTags c2))
  exact final (if containsSub thinkOpen (stripChars l)
    then stripChars (removeThink (stripChars l)) else stripChars l)

/-- C10: the response sanitization is idempotent — cleaning an already
cleaned string returns it unchanged. -/
theorem clean_response_idempotent (s : String) :
    clean_response (clean_response s) = clean_response s := by
  unfold clean_response
  exact congrArg String.mk (cleanChars_idem s.data)
